import Mathlib

/-!
# Verification of the spii constrained-optimization core

Shallow embedding of `source/constrained_function.cpp` and
`source/function.cpp` over exact rationals. Each definition is
translated from the corresponding C++ function; doubles are modelled
as `ℚ`, `std::map`/`std::vector` state as Lean lists in the order the
code iterates, and C++ exceptions as `Except String`.
-/

namespace Spii

/-! ## Phi wrapper term (constrained_function.cpp, lines 32-98)

`Phi::evaluate` reads `*sigma` and `*mu` through pointers at call time;
here they are passed as parameters.  `t` is the wrapped term's value at
the current variables, and `grad` the wrapped term's gradient, one list
of entries per argument variable. -/

/-- First branch of `Phi::evaluate`: `*sigma * t + (*mu / 2) * t*t`. -/
def Phi_branch1_value (sigma mu t : ℚ) : ℚ :=
  sigma * t + mu / 2 * (t * t)

/-- Second branch of `Phi::evaluate`: `- 1.0 / (2.0 * *mu) * (*sigma)*(*sigma)`. -/
def Phi_branch2_value (sigma mu : ℚ) : ℚ :=
  -1 / (2 * mu) * (sigma * sigma)

/-- One gradient entry written by the first branch of the gradient
overload: `*sigma * g + (*mu) * t * g`. -/
def Phi_branch1_gradient_entry (sigma mu t g : ℚ) : ℚ :=
  sigma * g + mu * t * g

/-- `Phi::evaluate(variables)` (value-only overload, lines 51-60). -/
def Phi_value (sigma mu t : ℚ) : ℚ :=
  if -t - sigma / mu ≤ 0 then Phi_branch1_value sigma mu t
  else Phi_branch2_value sigma mu

/-- Gradient written by `Phi::evaluate(variables, gradient)`
(lines 62-84): in the first branch every entry is rescaled, in the
second branch every entry is set to `0`. -/
def Phi_gradient (sigma mu t : ℚ) (grad : List (List ℚ)) : List (List ℚ) :=
  if -t - sigma / mu ≤ 0 then
    grad.map (fun g => g.map (Phi_branch1_gradient_entry sigma mu t))
  else
    grad.map (fun g => g.map (fun _ => 0))

/-- `Phi::evaluate(variables, gradient)` as a pair (returned value,
gradient contents after the call). -/
def Phi_evaluate_with_gradient (sigma mu t : ℚ) (grad : List (List ℚ)) :
    ℚ × List (List ℚ) :=
  (Phi_value sigma mu t, Phi_gradient sigma mu t grad)

/-! ## Dual update (constrained_function.cpp, lines 221-227) -/

/-- The per-constraint dual update in the `max_violation <= nu` branch of
`ConstrainedFunction::solve`: `if (c_x + lambda / mu <= 0) lambda = 0;
else lambda = lambda + mu * c_x;`. -/
def lambda_update (mu c lambda : ℚ) : ℚ :=
  if c + lambda / mu ≤ 0 then 0 else lambda + mu * c

/-! ## Feasibility test (constrained_function.cpp, lines 146-155) -/

/-- `ConstrainedFunction::is_feasible`: iterates over the constraints'
current values `c(x)` and returns `false` as soon as one exceeds
`1e-12`.  `constraint_values` is the list of `itr.second.evaluate()`
results at the current user state. -/
def is_feasible (constraint_values : List ℚ) : Bool :=
  constraint_values.all (fun c => c ≤ 1 / 10 ^ 12)

/-! ## The outer augmented-Lagrangian loop
(`ConstrainedFunction::solve`, constrained_function.cpp lines 157-297)

The inner unconstrained solver is external; it is modelled as an oracle
giving, for the `k`-th call `solver.solve(augmented_lagrangian, results)`,
the exit condition it writes into `results`, the objective value
`impl->objective.evaluate()` at the state it stopped in, and the list of
constraint values `itr.second.evaluate()` (in the iteration order of the
constraint map).  `std::pow(mu, 0.1)` and `std::pow(mu, 0.9)` are
real-valued; they are modelled by two abstract function parameters so
the loop structure can be stated over `ℚ`. -/

/-- `SolverResults::exit_condition` values that appear in
`constrained_function.cpp`. -/
inductive ExitCondition
  | INTERNAL_ERROR
  | FUNCTION_TOLERANCE
  | GRADIENT_TOLERANCE
  | NO_CONVERGENCE
  | ARGUMENT_TOLERANCE
  deriving DecidableEq, Repr

/-- Observable outcome of one inner call `solver.solve(...)`: the exit
condition the inner solver writes into `results`, the objective value at
the resulting state, and the constraint values at that state. -/
structure InnerStep where
  exit : ExitCondition
  f : ℚ
  cs : List ℚ
  deriving DecidableEq, Repr

/-- Abstract model of `std::pow` as used by the loop: `pow01 mu` stands
for `std::pow(mu, 0.1)` and `pow09 mu` for `std::pow(mu, 0.9)`. -/
structure PowModel where
  pow01 : ℚ → ℚ
  pow09 : ℚ → ℚ

/-- The function-improvement stopping test (lines 205-206):
`std::abs(f - f_prev) / (std::abs(f) + tol_f) < tol_f`.  `f_prev` is
initialized to `quiet_NaN()`, modelled as `none`; every `<` comparison
involving NaN is false in IEEE arithmetic, so the test is false then. -/
def ft_test (tol_f : ℚ) (f_prev : Option ℚ) (f : ℚ) : Bool :=
  match f_prev with
  | none => false
  | some fp => decide (|f - fp| / (|f| + tol_f) < tol_f)

/-- Result of one pass of the `while (true)` body, up to the iteration
cap: either the loop breaks with an exit condition and the current
multipliers, or it continues with updated `mu`, `nu`, the objective
value `f` (stored into `f_prev` at line 295) and multipliers. -/
inductive IterOut
  | done : ExitCondition → List ℚ → IterOut
  | next : ℚ → ℚ → ℚ → List ℚ → IterOut
  deriving DecidableEq

/-- One pass of the loop body (lines 178-261, logging omitted as it only
formats strings): read the oracle's `step`, compute `max_violation`
(line 183/190), run the function-tolerance test (line 205), then either
the dual-update branch (lines 211-247) or the penalty branch
(lines 248-261).  The `lambdas` list holds each constraint's `lambda`
in constraint-map order; `step.cs` holds the cached `c(x)` values. -/
def solve_iter (p : PowModel) (tol_f tol_d : ℚ) (mu nu : ℚ)
    (f_prev : Option ℚ) (lambdas : List ℚ) (step : InnerStep) : IterOut :=
  let f := step.f
  let max_violation := step.cs.foldl max 0
  if ft_test tol_f f_prev f then
    .done .FUNCTION_TOLERANCE lambdas
  else if max_violation ≤ nu then
    let new_lambdas := (lambdas.zip step.cs).map (fun pr => lambda_update mu pr.2 pr.1)
    let max_change := ((lambdas.zip new_lambdas).map (fun pr => |pr.1 - pr.2|)).foldl max 0
    let max_lambda := (new_lambdas.map (fun l => |l|)).foldl max 0
    if max_change / (max_lambda + tol_d) < tol_d ∧ max_violation < 1 / 10 ^ 8 then
      .done .GRADIENT_TOLERANCE new_lambdas
    else
      .next mu (nu / p.pow09 mu) f new_lambdas
  else
    .next (mu * 100) (1 / p.pow01 (mu * 100)) f lambdas

/-- Outcome of `ConstrainedFunction::solve`: the final
`results->exit_condition`, the final multipliers, and how many times the
inner solver was invoked. -/
structure SolveResult where
  exit : ExitCondition
  lambdas : List ℚ
  inner_calls : ℕ
  deriving DecidableEq, Repr

/-- The `while (true)` loop (lines 175-296).  `remaining` is
`max_number_of_iterations - iterations`; the code increments
`iterations` at line 288 and breaks with `NO_CONVERGENCE` when
`iterations >= max_number_of_iterations`, i.e. exactly when fewer than
two iterations remained on entry to the pass.  `calls` counts inner
solver invocations made so far. -/
def solve_loop (p : PowModel) (tol_f tol_d : ℚ) (oracle : ℕ → InnerStep) :
    ℕ → ℚ → ℚ → Option ℚ → List ℚ → ℕ → SolveResult
  | 0, mu, nu, f_prev, lambdas, calls =>
    match solve_iter p tol_f tol_d mu nu f_prev lambdas (oracle calls) with
    | .done e l => ⟨e, l, calls + 1⟩
    | .next _ _ _ l => ⟨.NO_CONVERGENCE, l, calls + 1⟩
  | m + 1, mu, nu, f_prev, lambdas, calls =>
    match solve_iter p tol_f tol_d mu nu f_prev lambdas (oracle calls) with
    | .done e l => ⟨e, l, calls + 1⟩
    | .next mu' nu' f l =>
      if m = 0 then ⟨.NO_CONVERGENCE, l, calls + 1⟩
      else solve_loop p tol_f tol_d oracle m mu' nu' (some f) l (calls + 1)

/-- `ConstrainedFunction::solve` (lines 157-297).  If the augmented
Lagrangian has no variables the function returns `FUNCTION_TOLERANCE`
immediately (lines 161-164); otherwise `mu = 10`,
`nu = 1.0 / pow(mu, 0.1)`, `f_prev = NaN` and the loop runs.
(`results->exit_condition` is set to `INTERNAL_ERROR` at entry, but
every return path overwrites it.) -/
def ConstrainedFunction_solve (p : PowModel) (tol_f tol_d : ℚ)
    (max_iterations num_variables : ℕ) (oracle : ℕ → InnerStep)
    (lambdas : List ℚ) : SolveResult :=
  if num_variables = 0 then ⟨.FUNCTION_TOLERANCE, lambdas, 0⟩
  else solve_loop p tol_f tol_d oracle max_iterations 10 (1 / p.pow01 10) none lambdas 0

/-! ## Function: variable registry (function.cpp, lines 53-90)

The source keys `variables` (a `std::map`) by the user storage pointer;
here a variable identity is a natural-number handle.  The model keeps
the registry in insertion order, which is the order in which
`global_index` values are assigned; no claim below depends on the map's
own iteration order. -/

/-- A `ChangeOfVariables` object: dimensions of the user (`x`) and
solver (`t`) parameterizations, the map `t_to_x`, and
`update_gradient`, which returns the solver-space gradient increment
(the source accumulates it into the global gradient). -/
structure ChangeOfVariables where
  x_dimension : ℕ
  t_dimension : ℕ
  t_to_x : List ℚ → List ℚ
  update_gradient : List ℚ → List ℚ → List ℚ

/-- `Function::AddedVariable`: the per-variable record filled in by
`add_variable_internal` (the `temp_space` scratch is not part of the
model; evaluation reads the local blocks directly from `x`). -/
structure AddedVariable where
  user_dimension : ℕ
  solver_dimension : ℕ
  global_index : ℕ
  change_of_variables : Option ChangeOfVariables

/-- Default used when the source would index `user_variables[var]`
out of range (cannot happen for terms built through `add_term`). -/
def default_variable : AddedVariable := ⟨0, 0, 0, none⟩

/-- A `Term`: arity, per-argument dimension, and the three evaluators
(value, per-argument gradient, arity x arity Hessian blocks), each a
pure function of the argument blocks. -/
structure TermModel where
  number_of_variables : ℕ
  variable_dimension : ℕ → ℕ
  value : List (List ℚ) → ℚ
  gradient : List (List ℚ) → List (List ℚ)
  hessian : List (List ℚ) → List (List (List (List ℚ)))

/-- `Function::AddedTerm`: the term and (copies of) the argument
variable records it was registered with (`user_variables`). -/
structure AddedTerm where
  term : TermModel
  user_variables : List AddedVariable

/-- The parts of a `Function` the claims below depend on.  `variables`
is the registry in insertion order. -/
structure FunctionModel where
  vars : List (ℕ × AddedVariable)
  number_of_scalars : ℕ
  terms : List AddedTerm
  hessian_is_enabled : Bool

/-- A freshly constructed `Function` (function.cpp, lines 11-35). -/
def empty_function : FunctionModel :=
  ⟨[], 0, [], true⟩

/-- `variables.find(variable)` on the registry. -/
def find_variable (f : FunctionModel) (key : ℕ) : Option AddedVariable :=
  (f.vars.find? (fun pr => pr.1 == key)).map Prod.snd

/-- `Function::add_variable_internal` (lines 53-90): if the variable is
already registered, check the dimension and return; otherwise register
it with `global_index = number_of_scalars` and advance
`number_of_scalars` by the solver dimension. -/
def add_variable_internal (f : FunctionModel) (key : ℕ) (dimension : ℕ)
    (cov : Option ChangeOfVariables) : Except String FunctionModel :=
  match find_variable f key with
  | some existing =>
    if existing.user_dimension ≠ dimension then
      .error "Function::add_variable: dimension mismatch."
    else .ok f
  | none =>
    match cov with
    | some c =>
      if dimension ≠ c.x_dimension then
        .error "Function::add_variable: dimension does not match the change of variables."
      else .ok { f with
        vars := f.vars ++
          [(key, ⟨c.x_dimension, c.t_dimension, f.number_of_scalars, some c⟩)],
        number_of_scalars := f.number_of_scalars + c.t_dimension }
    | none =>
      .ok { f with
        vars := f.vars ++
          [(key, ⟨dimension, dimension, f.number_of_scalars, none⟩)],
        number_of_scalars := f.number_of_scalars + dimension }

/-- `Function::add_term` (lines 93-136): validates arity, that every
argument is registered, and that each argument's `user_dimension`
matches the term's declared dimension, then appends an `AddedTerm`
whose `user_variables` are the registered records.  (The Hessian
scratch pre-allocation has no observable content and is omitted.)  The
registry and `number_of_scalars` are not touched. -/
def add_term (f : FunctionModel) (term : TermModel) (arguments : List ℕ) :
    Except String FunctionModel :=
  if term.number_of_variables ≠ arguments.length then
    .error "Function::add_term: incorrect number of arguments."
  else if arguments.any (fun a => (find_variable f a).isNone) then
    .error "Function::add_term: unknown variable."
  else if (List.range term.number_of_variables).any (fun var =>
      ((find_variable f (arguments.getD var 0)).map
        (fun v => v.user_dimension)).getD 0 ≠ term.variable_dimension var) then
    .error "Function::add_term: variable dimension does not match term."
  else
    .ok { f with terms := f.terms ++
      [⟨term, arguments.map (fun a => (find_variable f a).getD default_variable)⟩] }

/-- Checks that each variable's `global_index` is the running sum of
the `solver_dimension`s of the variables registered before it, starting
from `n`. -/
def indices_from (n : ℕ) : List (ℕ × AddedVariable) → Bool
  | [] => true
  | v :: rest =>
    (v.2.global_index == n) && indices_from (n + v.2.solver_dimension) rest

/-- The registry invariant of the spec: `global_index`es are the
partial sums of `solver_dimension`, and `number_of_scalars` is their
total. -/
def registry_invariant (f : FunctionModel) : Bool :=
  indices_from 0 f.vars &&
    (f.number_of_scalars == (f.vars.map (fun v => v.2.solver_dimension)).sum)

/-! ## Function: evaluation with gradient and Hessian
(function.cpp, lines 271-300, 376-532, 534-680)

Single-threaded (`number_of_threads == 1`, the non-OpenMP build): one
gradient storage vector, terms processed in order. -/

/-- `(x.drop off).take len`: the block of `x` at a variable's
`global_index`. -/
def block_slice (x : List ℚ) (off len : ℕ) : List ℚ :=
  (x.drop off).take len

/-- `Function::copy_global_to_local` for one variable (lines 302-320):
its local block is read directly from `x`, through `t_to_x` when a
change of variables is attached. -/
def local_block (x : List ℚ) (v : AddedVariable) : List ℚ :=
  match v.change_of_variables with
  | none => block_slice x v.global_index v.user_dimension
  | some c => c.t_to_x (block_slice x v.global_index v.solver_dimension)

/-- Add `incr` into `storage` starting at index `offset`
(`storage[offset + i] += incr[i]`). -/
def scatter_add : List ℚ → ℕ → List ℚ → List ℚ
  | s, _, [] => s
  | [], _, _ => []
  | a :: s, 0, g :: gs => (a + g) :: scatter_add s 0 gs
  | a :: s, n + 1, gs => a :: scatter_add s n gs

/-- The gradient accumulation for one term (lines 442-462 of the dense
path, identically lines 596-609 of the sparse path): evaluate the
term's gradient on its argument blocks, then for each argument either
copy `user_dimension` entries into the storage at `global_index`, or
push the gradient through `update_gradient` first. -/
def term_scatter_gradient (x : List ℚ) (storage : List ℚ) (at' : AddedTerm) :
    List ℚ :=
  let blocks := at'.user_variables.map (local_block x)
  let grads := at'.term.gradient blocks
  (at'.user_variables.zip grads).foldl (fun st pr =>
    match pr.1.change_of_variables with
    | none => scatter_add st pr.1.global_index (pr.2.take pr.1.user_dimension)
    | some c => scatter_add st pr.1.global_index
        (c.update_gradient (block_slice x pr.1.global_index pr.1.solver_dimension) pr.2))
    storage

/-- The fully assembled global gradient (lines 402-405, 417-462,
490-498): storage zeroed to length `number_of_scalars`, every term's
gradient scattered in, and the result written over the output
argument (which is resized and zeroed first, so its prior contents do
not matter). -/
def assembled_gradient (f : FunctionModel) (x : List ℚ) : List ℚ :=
  f.terms.foldl (term_scatter_gradient x) (List.replicate f.number_of_scalars 0)

/-- Sum of the term values as computed by the evaluators with
derivatives (`value += terms[i].term->evaluate(...)`). -/
def terms_value (f : FunctionModel) (x : List ℚ) : ℚ :=
  f.terms.foldl (fun acc at' =>
    acc + at'.term.value (at'.user_variables.map (local_block x))) 0

/-- Whether some term has an argument variable with a change of
variables attached — exactly the condition under which the Hessian
paths throw (lines 511-513 and 600-602). -/
def some_argument_has_cov (f : FunctionModel) : Bool :=
  f.terms.any (fun t => t.user_variables.any
    (fun v => v.change_of_variables.isSome))

/-- `Function::evaluate(x, gradient)` (lines 376-380, forwarding to the
dense overload with a null Hessian pointer): returns the gradient
output argument's final contents and the value.  No Hessian scatter
runs, so a change of variables does not fail here. -/
def Function_evaluate_with_gradient (f : FunctionModel) (x : List ℚ) :
    List ℚ × ℚ :=
  (assembled_gradient f x, terms_value f x)

/-- `Function::evaluate(x, gradient, hessian)` with a dense Hessian
requested (lines 382-532), as the pair (final contents of the gradient
output argument, outcome).  With Hessians disabled the function throws
before touching the gradient (line 388-390).  Otherwise the term loop
runs, the output gradient is resized and overwritten with the fully
assembled gradient (lines 490-498), and only then does the
single-threaded Hessian scatter pass throw if some argument variable
has a change of variables (lines 507-513).  On success the value is
returned (the dense matrix itself is not consumed by any claim and is
not materialized here). -/
def Function_evaluate_dense (f : FunctionModel) (x : List ℚ) (g₀ : List ℚ) :
    List ℚ × Except String ℚ :=
  if ¬ f.hessian_is_enabled then
    (g₀, .error "Function::evaluate: Hessian computation is not enabled.")
  else if some_argument_has_cov f then
    (assembled_gradient f x, .error "Change of variables not supported for Hessians")
  else
    (assembled_gradient f x, .ok (terms_value f x))

/-- `(at.user_variables.getD var).global_index`: the
`itr->user_variables[var]->global_index` lookup of the scatter loops. -/
def argument_offset (at' : AddedTerm) (var : ℕ) : ℕ :=
  (at'.user_variables.getD var default_variable).global_index

/-- The `(row, column)` indices of the triplets pushed by
`Function::create_sparse_hessian` (lines 271-300): for every term, for
every ordered pair `(var0, var1)` of its arguments, for every `(i, j)`
within the block, a triplet at
`(global_index0 + i, global_index1 + j)` with value `1.0`. -/
def pattern_indices (f : FunctionModel) : List (ℕ × ℕ) :=
  f.terms.flatMap (fun at' =>
    (List.range at'.term.number_of_variables).flatMap (fun var0 =>
      (List.range at'.term.number_of_variables).flatMap (fun var1 =>
        (List.range (at'.term.variable_dimension var0)).flatMap (fun i =>
          (List.range (at'.term.variable_dimension var1)).map (fun j =>
            (argument_offset at' var0 + i, argument_offset at' var1 + j))))))

/-- The triplets pushed by the numeric sparse-Hessian path
(lines 648-672): the same loop structure, with the entry of the term's
Hessian block as the value. -/
def numeric_triplets (f : FunctionModel) (x : List ℚ) : List (ℕ × ℕ × ℚ) :=
  f.terms.flatMap (fun at' =>
    let H := at'.term.hessian (at'.user_variables.map (local_block x))
    (List.range at'.term.number_of_variables).flatMap (fun var0 =>
      (List.range at'.term.number_of_variables).flatMap (fun var1 =>
        (List.range (at'.term.variable_dimension var0)).flatMap (fun i =>
          (List.range (at'.term.variable_dimension var1)).map (fun j =>
            (argument_offset at' var0 + i, argument_offset at' var1 + j,
             ((((H.getD var0 []).getD var1 []).getD i []).getD j 0)))))))

/-- `Function::evaluate(x, gradient, sparse_hessian)` (lines 534-680):
fails when Hessians are disabled or when some argument variable has a
change of variables; on success returns the value, the assembled
gradient, and the triplets from which `setFromTriplets` builds the
matrix (duplicates summed; an index is structurally present in the
built matrix exactly when it occurs in the triplet list). -/
def Function_evaluate_sparse (f : FunctionModel) (x : List ℚ) :
    Except String (ℚ × List ℚ × List (ℕ × ℕ × ℚ)) :=
  if ¬ f.hessian_is_enabled then
    .error "Function::evaluate: Hessian computation is not enabled."
  else if some_argument_has_cov f then
    .error "Change of variables not supported for sparse Hessian"
  else
    .ok (terms_value f x, assembled_gradient f x, numeric_triplets f x)

/-! ## Concrete instances used to exercise the model -/

/-- A concrete `PowModel` (any function pair exercises the loop). -/
def sample_pow : PowModel := ⟨fun _ => 10, fun _ => 10⟩

/-- An inner-solver oracle that reports `INTERNAL_ERROR` on every call,
with distinct objective values and no constraints. -/
def error_oracle : ℕ → InnerStep := fun k => ⟨.INTERNAL_ERROR, k, []⟩

/-- An oracle whose single constraint is violated by `5` on every
call. -/
def violation_oracle : ℕ → InnerStep := fun _ => ⟨.NO_CONVERGENCE, 0, [5]⟩

/-- A one-dimensional identity change of variables. -/
def sample_cov : ChangeOfVariables := ⟨1, 1, fun t => t, fun _ g => g⟩

/-- A registered one-dimensional variable carrying `sample_cov`. -/
def cov_variable : AddedVariable := ⟨1, 1, 0, some sample_cov⟩

/-- A registered one-dimensional variable with no change of
variables. -/
def plain_variable : AddedVariable := ⟨1, 1, 0, none⟩

/-- A one-argument, one-dimensional term with constant derivatives. -/
def id_term : TermModel :=
  ⟨1, fun _ => 1, fun blocks => (blocks.getD 0 []).getD 0 0,
   fun _ => [[1]], fun _ => [[[[2]]]]⟩

/-- A `Function` holding `id_term` over the change-of-variables
variable. -/
def cov_function : FunctionModel :=
  ⟨[(7, cov_variable)], 1, [⟨id_term, [cov_variable]⟩], true⟩

/-- A `Function` holding `id_term` over the plain variable. -/
def plain_function : FunctionModel :=
  ⟨[(3, plain_variable)], 1, [⟨id_term, [plain_variable]⟩], true⟩

/-! ## Theorems -/

/-- The first-branch gradient rescaling `sigma * g + mu * t * g` equals
the spec's `(sigma + mu * t) * g` entrywise. -/
lemma Phi_branch1_gradient_entry_factored (sigma mu t : ℚ) :
    Phi_branch1_gradient_entry sigma mu t = fun g => (sigma + mu * t) * g := by
  funext g
  simp only [Phi_branch1_gradient_entry]
  ring

/-- C1: for every `sigma`, every `mu > 0`, every wrapped-term value `t`
and gradient: if `-t - sigma/mu ≤ 0`, Phi's value is
`sigma*t + (mu/2)*t^2` and each gradient entry is `(sigma + mu*t)`
times the wrapped gradient entry; otherwise the value is
`-sigma^2/(2*mu)` and every gradient entry is `0` — for both the
value-only evaluator and the value-plus-gradient evaluator. -/
theorem phi_evaluate_matches_spec (sigma mu t : ℚ) (grad : List (List ℚ))
    (hmu : 0 < mu) :
    (-t - sigma / mu ≤ 0 →
      Phi_value sigma mu t = sigma * t + mu / 2 * t ^ 2 ∧
      Phi_evaluate_with_gradient sigma mu t grad
        = (sigma * t + mu / 2 * t ^ 2,
           grad.map (fun g => g.map (fun gj => (sigma + mu * t) * gj)))) ∧
    (¬ (-t - sigma / mu ≤ 0) →
      Phi_value sigma mu t = -sigma ^ 2 / (2 * mu) ∧
      Phi_evaluate_with_gradient sigma mu t grad
        = (-sigma ^ 2 / (2 * mu), grad.map (fun g => g.map (fun _ => 0)))) := by
  constructor
  · intro h
    simp only [Phi_value, Phi_evaluate_with_gradient, Phi_gradient, if_pos h,
      Phi_branch1_value, Phi_branch1_gradient_entry_factored]
    exact ⟨by ring, by rw [Prod.mk.injEq]; exact ⟨by ring, rfl⟩⟩
  · intro h
    simp only [Phi_value, Phi_evaluate_with_gradient, Phi_gradient, if_neg h,
      Phi_branch2_value]
    exact ⟨by ring, by rw [Prod.mk.injEq]; exact ⟨by ring, rfl⟩⟩

/-- Witness for `phi_evaluate_matches_spec` at
`sigma = 1, mu = 2, t = 3, grad = [[4]]`. -/
theorem phi_evaluate_matches_spec_witness :
    (0:ℚ) < 2 ∧
    ((-(3:ℚ) - 1 / 2 ≤ 0 →
      Phi_value 1 2 3 = 1 * 3 + 2 / 2 * 3 ^ 2 ∧
      Phi_evaluate_with_gradient 1 2 3 [[4]]
        = (1 * 3 + 2 / 2 * 3 ^ 2,
           [[(4:ℚ)]].map (fun g => g.map (fun gj => (1 + 2 * 3) * gj)))) ∧
    (¬ (-(3:ℚ) - 1 / 2 ≤ 0) →
      Phi_value 1 2 3 = -1 ^ 2 / (2 * 2) ∧
      Phi_evaluate_with_gradient 1 2 3 [[4]]
        = (-1 ^ 2 / (2 * 2), [[(4:ℚ)]].map (fun g => g.map (fun _ => 0))))) :=
  ⟨by norm_num, phi_evaluate_matches_spec 1 2 3 [[4]] (by norm_num)⟩

/-- C5: for every `sigma` and every `mu > 0`, at the switching surface
`t = -sigma/mu` the first branch's value equals the second branch's
value, and the first branch's gradient rescaling sends every wrapped
gradient to the zero gradient — hence Phi is C¹ there. -/
theorem phi_branches_agree_at_switch (sigma mu : ℚ) (hmu : 0 < mu)
    (grad : List (List ℚ)) :
    Phi_branch1_value sigma mu (-(sigma / mu)) = Phi_branch2_value sigma mu ∧
    grad.map (fun g => g.map (Phi_branch1_gradient_entry sigma mu (-(sigma / mu))))
      = grad.map (fun g => g.map (fun _ => 0)) := by
  have hne : mu ≠ 0 := ne_of_gt hmu
  constructor
  · simp only [Phi_branch1_value, Phi_branch2_value]
    field_simp
    ring
  · have hfun : Phi_branch1_gradient_entry sigma mu (-(sigma / mu))
        = fun _ : ℚ => (0:ℚ) := by
      funext g
      simp only [Phi_branch1_gradient_entry]
      field_simp
      ring
    rw [hfun]

/-- Witness for `phi_branches_agree_at_switch` at
`sigma = 1, mu = 2, grad = [[5]]`. -/
theorem phi_branches_agree_at_switch_witness :
    (0:ℚ) < 2 ∧
    (Phi_branch1_value 1 2 (-(1 / 2)) = Phi_branch2_value 1 2 ∧
     [[(5:ℚ)]].map (fun g => g.map (Phi_branch1_gradient_entry 1 2 (-(1 / 2))))
       = [[(5:ℚ)]].map (fun g => g.map (fun _ => 0))) :=
  ⟨by norm_num, phi_branches_agree_at_switch 1 2 (by norm_num) [[5]]⟩

/-- C2 counterexample: at `mu = 10`, `c = -1`, `lambda = 20` the guard
`c + lambda/mu > 0` holds and the update sets
`lambda = lambda + mu*c = 10`, which is NOT strictly greater than the
old `lambda = 20`. -/
theorem lambda_update_not_increasing :
    (0:ℚ) < 10 ∧ (0:ℚ) < -1 + 20 / 10 ∧
    lambda_update 10 (-1) 20 = 20 + 10 * (-1) ∧
    ¬ (20 < lambda_update 10 (-1) 20) := by
  norm_num [lambda_update]

/-- C2 (amended): in the dual-update branch, for `mu > 0`: if
`c + lambda/mu > 0` the new multiplier equals `lambda + mu*c` and is
strictly positive; otherwise the new multiplier is `0`. -/
theorem lambda_update_cases (mu c lambda : ℚ) (hmu : 0 < mu) :
    (0 < c + lambda / mu →
      lambda_update mu c lambda = lambda + mu * c ∧
      0 < lambda_update mu c lambda) ∧
    (c + lambda / mu ≤ 0 → lambda_update mu c lambda = 0) := by
  have hne : mu ≠ 0 := ne_of_gt hmu
  constructor
  · intro h
    have heq : lambda_update mu c lambda = lambda + mu * c := by
      simp only [lambda_update, if_neg (not_le.mpr h)]
    refine ⟨heq, ?_⟩
    rw [heq]
    have hfac : lambda + mu * c = mu * (c + lambda / mu) := by
      field_simp
      ring
    rw [hfac]
    exact mul_pos hmu h
  · intro h
    simp only [lambda_update, if_pos h]

/-- Witness for `lambda_update_cases` at `mu = 10, c = -1,
lambda = 20`. -/
theorem lambda_update_cases_witness :
    (0:ℚ) < 10 ∧
    ((0 < (-1:ℚ) + 20 / 10 →
      lambda_update 10 (-1) 20 = 20 + 10 * (-1) ∧
      0 < lambda_update 10 (-1) 20) ∧
    ((-1:ℚ) + 20 / 10 ≤ 0 → lambda_update 10 (-1) 20 = 0)) :=
  ⟨by norm_num, lambda_update_cases 10 (-1) 20 (by norm_num)⟩

/-- C8: `is_feasible` returns `true` iff every constraint value at the
current user state is at most `10^{-12}`. -/
theorem is_feasible_iff (constraint_values : List ℚ) :
    is_feasible constraint_values = true ↔
    ∀ c ∈ constraint_values, c ≤ 1 / 10 ^ 12 := by
  simp [is_feasible]

/-- `solve_iter` reads only the objective and constraint values of an
inner step, never the exit condition the inner solver wrote. -/
lemma solve_iter_oracle_blind (p : PowModel) (tf td mu nu : ℚ)
    (f_prev : Option ℚ) (lambdas : List ℚ) (s s' : InnerStep)
    (hf : s.f = s'.f) (hcs : s.cs = s'.cs) :
    solve_iter p tf td mu nu f_prev lambdas s
      = solve_iter p tf td mu nu f_prev lambdas s' := by
  simp only [solve_iter, hf, hcs]

/-- A `while` pass can break (other than through the iteration cap)
only with `FUNCTION_TOLERANCE` or `GRADIENT_TOLERANCE`. -/
lemma solve_iter_done_exit (p : PowModel) (tf td mu nu : ℚ)
    (f_prev : Option ℚ) (lambdas l : List ℚ) (step : InnerStep)
    (e : ExitCondition)
    (h : solve_iter p tf td mu nu f_prev lambdas step = .done e l) :
    e = .FUNCTION_TOLERANCE ∨ e = .GRADIENT_TOLERANCE := by
  simp only [solve_iter] at h
  split at h
  · injection h with h1 _
    exact Or.inl h1.symm
  · split at h
    · split at h
      · injection h with h1 _
        exact Or.inr h1.symm
      · exact IterOut.noConfusion h
    · exact IterOut.noConfusion h

/-- With `f_prev = NaN` a pass cannot break with
`FUNCTION_TOLERANCE`. -/
lemma solve_iter_none_done_exit (p : PowModel) (tf td mu nu : ℚ)
    (lambdas l : List ℚ) (step : InnerStep) (e : ExitCondition)
    (h : solve_iter p tf td mu nu none lambdas step = .done e l) :
    e = .GRADIENT_TOLERANCE := by
  simp only [solve_iter, ft_test, Bool.false_eq_true, if_false] at h
  split at h
  · split at h
    · injection h with h1 _
      exact h1.symm
    · exact IterOut.noConfusion h
  · exact IterOut.noConfusion h

/-- The loop's result never depends on the exit conditions the inner
solver writes: oracles agreeing on objective and constraint values give
identical runs. -/
lemma solve_loop_oracle_blind (p : PowModel) (tf td : ℚ)
    (oracle oracle' : ℕ → InnerStep)
    (h : ∀ k, (oracle k).f = (oracle' k).f ∧ (oracle k).cs = (oracle' k).cs) :
    ∀ m mu nu f_prev lambdas calls,
      solve_loop p tf td oracle m mu nu f_prev lambdas calls
        = solve_loop p tf td oracle' m mu nu f_prev lambdas calls := by
  intro m
  induction m with
  | zero =>
    intro mu nu f_prev lambdas calls
    simp only [solve_loop]
    rw [solve_iter_oracle_blind p tf td mu nu f_prev lambdas _ _
      (h calls).1 (h calls).2]
  | succ n ih =>
    intro mu nu f_prev lambdas calls
    simp only [solve_loop]
    rw [solve_iter_oracle_blind p tf td mu nu f_prev lambdas _ _
      (h calls).1 (h calls).2]
    cases solve_iter p tf td mu nu f_prev lambdas (oracle' calls) with
    | done e l => rfl
    | next mu' nu' f l =>
      by_cases hn : n = 0
      · simp [hn]
      · simp only [if_neg hn]
        exact ih mu' nu' (some f) l (calls + 1)

/-- Every run of the loop ends with one of the three outer-loop exit
conditions. -/
lemma solve_loop_exit_normal (p : PowModel) (tf td : ℚ)
    (oracle : ℕ → InnerStep) :
    ∀ m mu nu f_prev lambdas calls,
      (solve_loop p tf td oracle m mu nu f_prev lambdas calls).exit
          = .FUNCTION_TOLERANCE ∨
      (solve_loop p tf td oracle m mu nu f_prev lambdas calls).exit
          = .GRADIENT_TOLERANCE ∨
      (solve_loop p tf td oracle m mu nu f_prev lambdas calls).exit
          = .NO_CONVERGENCE := by
  intro m
  induction m with
  | zero =>
    intro mu nu f_prev lambdas calls
    simp only [solve_loop]
    cases hs : solve_iter p tf td mu nu f_prev lambdas (oracle calls) with
    | done e l =>
      rcases solve_iter_done_exit p tf td mu nu f_prev lambdas l _ e hs with h | h
      · exact Or.inl h
      · exact Or.inr (Or.inl h)
    | next mu' nu' f l => exact Or.inr (Or.inr rfl)
  | succ n ih =>
    intro mu nu f_prev lambdas calls
    simp only [solve_loop]
    cases hs : solve_iter p tf td mu nu f_prev lambdas (oracle calls) with
    | done e l =>
      rcases solve_iter_done_exit p tf td mu nu f_prev lambdas l _ e hs with h | h
      · exact Or.inl h
      · exact Or.inr (Or.inl h)
    | next mu' nu' f l =>
      by_cases hn : n = 0
      · simp [hn]
      · simp only [if_neg hn]
        exact ih mu' nu' (some f) l (calls + 1)

/-- The loop makes at least one more inner call than it has made so
far. -/
lemma solve_loop_calls_lower_bound (p : PowModel) (tf td : ℚ)
    (oracle : ℕ → InnerStep) :
    ∀ m mu nu f_prev lambdas calls,
      calls + 1 ≤ (solve_loop p tf td oracle m mu nu f_prev lambdas calls).inner_calls := by
  intro m
  induction m with
  | zero =>
    intro mu nu f_prev lambdas calls
    simp only [solve_loop]
    cases solve_iter p tf td mu nu f_prev lambdas (oracle calls) with
    | done e l => exact le_refl _
    | next mu' nu' f l => exact le_refl _
  | succ n ih =>
    intro mu nu f_prev lambdas calls
    simp only [solve_loop]
    cases solve_iter p tf td mu nu f_prev lambdas (oracle calls) with
    | done e l => exact le_refl _
    | next mu' nu' f l =>
      by_cases hn : n = 0
      · simp [hn]
      · simp only [if_neg hn]
        exact le_trans (by omega) (ih mu' nu' (some f) l (calls + 1))

/-- C3 counterexample: with an inner solver that writes
`INTERNAL_ERROR` on every call, the outer loop still performs a second
inner call — it does not continue "only when that condition is a normal
termination". -/
theorem solve_continues_after_internal_error :
    (error_oracle 0).exit = ExitCondition.INTERNAL_ERROR ∧
    (ConstrainedFunction_solve sample_pow 0 0 2 1 error_oracle []).inner_calls = 2 := by
  constructor
  · rfl
  · norm_num [ConstrainedFunction_solve, solve_loop, solve_iter, ft_test,
      error_oracle, sample_pow, lambda_update]

/-- C3 (amended): the outer loop never inspects the exit condition
written by the inner solver (two oracles agreeing on objective and
constraint values give identical results), and the exit condition when
`solve` returns is always `FUNCTION_TOLERANCE`, `GRADIENT_TOLERANCE`
or `NO_CONVERGENCE` — all written by the outer loop itself. -/
theorem solve_exit_is_outer_write (p : PowModel) (tol_f tol_d : ℚ)
    (max_iterations num_variables : ℕ) (oracle oracle' : ℕ → InnerStep)
    (lambdas : List ℚ)
    (h : ∀ k, (oracle k).f = (oracle' k).f ∧ (oracle k).cs = (oracle' k).cs) :
    ConstrainedFunction_solve p tol_f tol_d max_iterations num_variables oracle lambdas
      = ConstrainedFunction_solve p tol_f tol_d max_iterations num_variables oracle' lambdas ∧
    ((ConstrainedFunction_solve p tol_f tol_d max_iterations num_variables oracle lambdas).exit
        = .FUNCTION_TOLERANCE ∨
     (ConstrainedFunction_solve p tol_f tol_d max_iterations num_variables oracle lambdas).exit
        = .GRADIENT_TOLERANCE ∨
     (ConstrainedFunction_solve p tol_f tol_d max_iterations num_variables oracle lambdas).exit
        = .NO_CONVERGENCE) := by
  by_cases hnv : num_variables = 0
  · simp only [ConstrainedFunction_solve, if_pos hnv]
    exact ⟨trivial, Or.inl trivial⟩
  · simp only [ConstrainedFunction_solve, if_neg hnv]
    exact ⟨solve_loop_oracle_blind p tol_f tol_d oracle oracle' h
        max_iterations 10 (1 / p.pow01 10) none lambdas 0,
      solve_loop_exit_normal p tol_f tol_d oracle
        max_iterations 10 (1 / p.pow01 10) none lambdas 0⟩

/-- Witness for `solve_exit_is_outer_write` with the concrete
`error_oracle` run. -/
theorem solve_exit_is_outer_write_witness :
    ConstrainedFunction_solve sample_pow 0 0 2 1 error_oracle []
      = ConstrainedFunction_solve sample_pow 0 0 2 1 error_oracle [] ∧
    ((ConstrainedFunction_solve sample_pow 0 0 2 1 error_oracle []).exit
        = .FUNCTION_TOLERANCE ∨
     (ConstrainedFunction_solve sample_pow 0 0 2 1 error_oracle []).exit
        = .GRADIENT_TOLERANCE ∨
     (ConstrainedFunction_solve sample_pow 0 0 2 1 error_oracle []).exit
        = .NO_CONVERGENCE) :=
  solve_exit_is_outer_write sample_pow 0 0 2 1 error_oracle error_oracle []
    (fun _ => ⟨rfl, rfl⟩)

/-- C6: in a pass whose function-tolerance test fails and whose
`max_violation` exceeds `nu`, the penalty branch is taken:
`mu` is multiplied by `100`, `nu` is reset to `pow(new mu, 0.1)⁻¹`, and
the multipliers are passed on unmodified — both when the loop then
stops at the iteration cap and when it continues. -/
theorem penalty_branch_updates (p : PowModel) (tol_f tol_d mu nu : ℚ)
    (f_prev : Option ℚ) (lambdas : List ℚ) (oracle : ℕ → InnerStep)
    (calls m : ℕ)
    (h1 : ft_test tol_f f_prev (oracle calls).f = false)
    (h2 : nu < (oracle calls).cs.foldl max 0) :
    solve_iter p tol_f tol_d mu nu f_prev lambdas (oracle calls)
      = .next (mu * 100) (1 / p.pow01 (mu * 100)) (oracle calls).f lambdas ∧
    solve_loop p tol_f tol_d oracle 0 mu nu f_prev lambdas calls
      = ⟨.NO_CONVERGENCE, lambdas, calls + 1⟩ ∧
    (m = 0 → solve_loop p tol_f tol_d oracle (m + 1) mu nu f_prev lambdas calls
      = ⟨.NO_CONVERGENCE, lambdas, calls + 1⟩) ∧
    (m ≠ 0 → solve_loop p tol_f tol_d oracle (m + 1) mu nu f_prev lambdas calls
      = solve_loop p tol_f tol_d oracle m (mu * 100) (1 / p.pow01 (mu * 100))
          (some (oracle calls).f) lambdas (calls + 1)) := by
  have hiter : solve_iter p tol_f tol_d mu nu f_prev lambdas (oracle calls)
      = .next (mu * 100) (1 / p.pow01 (mu * 100)) (oracle calls).f lambdas := by
    simp only [solve_iter, h1, Bool.false_eq_true, if_false,
      if_neg (not_le.mpr h2)]
  refine ⟨hiter, ?_, ?_, ?_⟩
  · simp only [solve_loop, hiter]
  · intro hm
    simp [solve_loop, hiter, hm]
  · intro hm
    simp only [solve_loop, hiter, if_neg hm]

/-- Witness for `penalty_branch_updates` with a violated constraint
(`c = 5 > nu = 1`). -/
theorem penalty_branch_updates_witness :
    solve_iter sample_pow 0 0 10 1 none [3] (violation_oracle 0)
      = .next (10 * 100) (1 / sample_pow.pow01 (10 * 100)) (violation_oracle 0).f [3] ∧
    solve_loop sample_pow 0 0 violation_oracle 0 10 1 none [3] 0
      = ⟨.NO_CONVERGENCE, [3], 0 + 1⟩ ∧
    ((1:ℕ) = 0 → solve_loop sample_pow 0 0 violation_oracle (1 + 1) 10 1 none [3] 0
      = ⟨.NO_CONVERGENCE, [3], 0 + 1⟩) ∧
    ((1:ℕ) ≠ 0 → solve_loop sample_pow 0 0 violation_oracle (1 + 1) 10 1 none [3] 0
      = solve_loop sample_pow 0 0 violation_oracle 1 (10 * 100)
          (1 / sample_pow.pow01 (10 * 100)) (some (violation_oracle 0).f) [3] (0 + 1)) :=
  penalty_branch_updates sample_pow 0 0 10 1 none [3] violation_oracle 0 1
    (by rfl) (by norm_num [violation_oracle])

/-- C9: `f_prev` starts as NaN, so the function-improvement test is
false on the first pass for every objective value; hence with at least
one variable a `FUNCTION_TOLERANCE` exit requires at least two inner
solver calls. -/
theorem function_tolerance_needs_two_calls (p : PowModel) (tol_f tol_d : ℚ)
    (max_iterations num_variables : ℕ) (oracle : ℕ → InnerStep)
    (lambdas : List ℚ) (hnv : 0 < num_variables) :
    (∀ f, ft_test tol_f none f = false) ∧
    ((ConstrainedFunction_solve p tol_f tol_d max_iterations num_variables oracle lambdas).exit
        = .FUNCTION_TOLERANCE →
      2 ≤ (ConstrainedFunction_solve p tol_f tol_d max_iterations num_variables oracle lambdas).inner_calls) := by
  refine ⟨fun f => rfl, ?_⟩
  simp only [ConstrainedFunction_solve, if_neg hnv.ne']
  cases max_iterations with
  | zero =>
    simp only [solve_loop]
    cases hs : solve_iter p tol_f tol_d 10 (1 / p.pow01 10) none lambdas (oracle 0) with
    | done e l =>
      intro hFT
      rw [solve_iter_none_done_exit p tol_f tol_d 10 (1 / p.pow01 10) lambdas l
        (oracle 0) e hs] at hFT
      exact ExitCondition.noConfusion hFT
    | next mu' nu' f l =>
      intro hFT
      exact ExitCondition.noConfusion hFT
  | succ n =>
    simp only [solve_loop]
    cases hs : solve_iter p tol_f tol_d 10 (1 / p.pow01 10) none lambdas (oracle 0) with
    | done e l =>
      intro hFT
      rw [solve_iter_none_done_exit p tol_f tol_d 10 (1 / p.pow01 10) lambdas l
        (oracle 0) e hs] at hFT
      exact ExitCondition.noConfusion hFT
    | next mu' nu' f l =>
      by_cases hn : n = 0
      · simp only [hn, if_pos rfl]
        intro hFT
        exact ExitCondition.noConfusion hFT
      · simp only [if_neg hn]
        intro _
        exact le_trans (by omega)
          (solve_loop_calls_lower_bound p tol_f tol_d oracle n mu' nu' (some f) l 1)

/-- Witness for `function_tolerance_needs_two_calls`: the
`error_oracle` run with `tol_f = 1` reaches `FUNCTION_TOLERANCE` at
exactly two inner calls. -/
theorem function_tolerance_needs_two_calls_witness :
    (0:ℕ) < 1 ∧
    ((∀ f, ft_test 1 none f = false) ∧
    ((ConstrainedFunction_solve sample_pow 1 0 5 1 error_oracle []).exit
        = .FUNCTION_TOLERANCE →
      2 ≤ (ConstrainedFunction_solve sample_pow 1 0 5 1 error_oracle []).inner_calls)) :=
  ⟨by norm_num,
   function_tolerance_needs_two_calls sample_pow 1 0 5 1 error_oracle []
     (by norm_num)⟩

/-- Unfolding `indices_from` to the spec's form: the `i`-th
`global_index` is `n` plus the sum of the earlier
`solver_dimension`s. -/
lemma indices_from_take_sum (l : List (ℕ × AddedVariable)) :
    ∀ n, indices_from n l = true →
      ∀ i (hi : i < l.length),
        (l.get ⟨i, hi⟩).2.global_index
          = n + ((l.take i).map (fun v => v.2.solver_dimension)).sum := by
  induction l with
  | nil => intro n _ i hi; exact absurd hi (by simp)
  | cons v rest ih =>
    intro n h i hi
    simp only [indices_from, Bool.and_eq_true, beq_iff_eq] at h
    cases i with
    | zero => simpa using h.1
    | succ j =>
      have hj := ih (n + v.2.solver_dimension) h.2 j (by simpa using hi)
      simp only [List.get_cons_succ, List.take_succ_cons, List.map_cons,
        List.sum_cons] at hj ⊢
      omega

/-- Appending a variable whose `global_index` is the current total
preserves `indices_from`. -/
lemma indices_from_append (l : List (ℕ × AddedVariable))
    (v : ℕ × AddedVariable) :
    ∀ n, indices_from n l = true →
      v.2.global_index = n + (l.map (fun w => w.2.solver_dimension)).sum →
      indices_from n (l ++ [v]) = true := by
  induction l with
  | nil =>
    intro n _ hv
    simp only [List.nil_append, indices_from, Bool.and_eq_true, beq_iff_eq]
    exact ⟨by simpa using hv, trivial⟩
  | cons w rest ih =>
    intro n h hv
    simp only [indices_from, Bool.and_eq_true, beq_iff_eq] at h
    simp only [List.cons_append, indices_from, Bool.and_eq_true, beq_iff_eq]
    refine ⟨h.1, ih (n + w.2.solver_dimension) h.2 ?_⟩
    simp only [List.map_cons, List.sum_cons] at hv
    omega

/-- C4: the empty `Function` satisfies the registry invariant; every
successful `add_variable_internal` call preserves it and only appends
to the registry (so `global_index`es, once assigned, never change);
`add_term` changes neither the registry nor `number_of_scalars`; and
the invariant states exactly that `number_of_scalars` is the sum of the
`solver_dimension`s and that each `global_index` is the sum of the
`solver_dimension`s of the variables registered strictly before it. -/
theorem add_variable_registry_invariants :
    registry_invariant empty_function = true ∧
    (∀ f f' key dim cov, registry_invariant f = true →
      add_variable_internal f key dim cov = .ok f' →
      registry_invariant f' = true ∧ ∃ tail, f'.vars = f.vars ++ tail) ∧
    (∀ f f' term args, add_term f term args = .ok f' →
      f'.vars = f.vars ∧ f'.number_of_scalars = f.number_of_scalars) ∧
    (∀ f, registry_invariant f = true →
      f.number_of_scalars = (f.vars.map (fun v => v.2.solver_dimension)).sum ∧
      ∀ i (hi : i < f.vars.length),
        (f.vars.get ⟨i, hi⟩).2.global_index
          = ((f.vars.take i).map (fun v => v.2.solver_dimension)).sum) := by
  refine ⟨rfl, ?_, ?_, ?_⟩
  · intro f f' key dim cov hinv hok
    simp only [registry_invariant, Bool.and_eq_true, beq_iff_eq] at hinv
    simp only [add_variable_internal] at hok
    split at hok
    · split at hok
      · exact Except.noConfusion hok
      · injection hok with h1
        subst h1
        refine ⟨?_, [], by simp⟩
        simp only [registry_invariant, Bool.and_eq_true, beq_iff_eq]
        exact hinv
    · split at hok
      · split at hok
        · exact Except.noConfusion hok
        · injection hok with h1
          subst h1
          constructor
          · simp only [registry_invariant, Bool.and_eq_true, beq_iff_eq]
            constructor
            · exact indices_from_append f.vars _ 0 hinv.1 (by simpa using hinv.2)
            · simp [hinv.2]
          · exact ⟨_, rfl⟩
      · injection hok with h1
        subst h1
        constructor
        · simp only [registry_invariant, Bool.and_eq_true, beq_iff_eq]
          constructor
          · exact indices_from_append f.vars _ 0 hinv.1 (by simpa using hinv.2)
          · simp [hinv.2]
        · exact ⟨_, rfl⟩
  · intro f f' term args hok
    simp only [add_term] at hok
    split at hok
    · exact Except.noConfusion hok
    · split at hok
      · exact Except.noConfusion hok
      · split at hok
        · exact Except.noConfusion hok
        · injection hok with h1
          subst h1
          exact ⟨rfl, rfl⟩
  · intro f hinv
    simp only [registry_invariant, Bool.and_eq_true, beq_iff_eq] at hinv
    exact ⟨hinv.2, fun i hi => by simpa using indices_from_take_sum f.vars 0 hinv.1 i hi⟩

/-- Witness for `add_variable_registry_invariants`: registering a
2-dimensional variable in the empty `Function`. -/
theorem add_variable_registry_invariants_witness :
    registry_invariant (FunctionModel.mk [(0, ⟨2, 2, 0, none⟩)] 2 [] true) = true ∧
    ∃ tail, (FunctionModel.mk [(0, ⟨2, 2, 0, none⟩)] 2 [] true).vars
      = empty_function.vars ++ tail :=
  add_variable_registry_invariants.2.1 empty_function
    (FunctionModel.mk [(0, ⟨2, 2, 0, none⟩)] 2 [] true) 0 2 none rfl rfl

/-- The numeric sparse-Hessian triplets carry exactly the indices of
the structural pattern: both paths run the same four nested loops over
the same terms. -/
lemma numeric_triplets_index_map (f : FunctionModel) (x : List ℚ) :
    (numeric_triplets f x).map (fun tr => (tr.1, tr.2.1)) = pattern_indices f := by
  simp only [numeric_triplets, pattern_indices, List.map_flatMap, List.map_map]
  rfl

/-- C7: every `(row, column)` index at which the numeric sparse-Hessian
path emits a (structurally nonzero) entry is present in the pattern
produced by `create_sparse_hessian` on the same `Function`. -/
theorem sparse_pattern_superset (f : FunctionModel) (x : List ℚ)
    (out : ℚ × List ℚ × List (ℕ × ℕ × ℚ))
    (h : Function_evaluate_sparse f x = .ok out) :
    ∀ rc ∈ out.2.2.map (fun tr => (tr.1, tr.2.1)), rc ∈ pattern_indices f := by
  have hout : out.2.2 = numeric_triplets f x := by
    simp only [Function_evaluate_sparse] at h
    split at h
    · exact Except.noConfusion h
    · split at h
      · exact Except.noConfusion h
      · injection h with h1
        rw [← h1]
  intro rc hrc
  rw [hout, numeric_triplets_index_map] at hrc
  exact hrc

/-- Witness for `sparse_pattern_superset`: the index `(0, 0)` emitted by
the numeric path on `plain_function` lies in its pattern. -/
theorem sparse_pattern_superset_witness :
    ((0, 0) : ℕ × ℕ) ∈ pattern_indices plain_function :=
  sparse_pattern_superset plain_function [2] (2, [1], [(0, 0, 2)])
    (by norm_num [Function_evaluate_sparse, some_argument_has_cov, numeric_triplets,
      terms_value, assembled_gradient, term_scatter_gradient, scatter_add, local_block,
      block_slice, plain_function, plain_variable, id_term, argument_offset,
      default_variable, List.range_succ, List.range_zero])
    (0, 0) (by simp)

/-- C10: when a dense Hessian is requested (and enabled) on a
`Function` some of whose term arguments carry a change of variables,
the call fails with the scatter-pass error, and at that point the
gradient output argument already holds the fully assembled gradient —
the same gradient the gradient-only evaluation path produces — so the
failing call is not atomic: the output argument has been overwritten. -/
theorem evaluate_dense_not_atomic_on_cov (f : FunctionModel)
    (x g₀ : List ℚ)
    (hen : f.hessian_is_enabled = true)
    (hcov : some_argument_has_cov f = true) :
    Function_evaluate_dense f x g₀
      = (assembled_gradient f x,
         .error "Change of variables not supported for Hessians") ∧
    (Function_evaluate_dense f x g₀).1 = (Function_evaluate_with_gradient f x).1 := by
  have hne : ¬ (¬ f.hessian_is_enabled = true) := by simp [hen]
  constructor
  · simp only [Function_evaluate_dense, if_neg hne, if_pos hcov]
  · simp only [Function_evaluate_dense, Function_evaluate_with_gradient,
      if_neg hne, if_pos hcov]

/-- Witness for `evaluate_dense_not_atomic_on_cov`: on `cov_function`
at `x = [3]` with prior gradient contents `[9]`, the dense path fails
and leaves the assembled gradient in the output argument. -/
theorem evaluate_dense_not_atomic_on_cov_witness :
    Function_evaluate_dense cov_function [3] [9]
      = (assembled_gradient cov_function [3],
         .error "Change of variables not supported for Hessians") ∧
    (Function_evaluate_dense cov_function [3] [9]).1
      = (Function_evaluate_with_gradient cov_function [3]).1 :=
  evaluate_dense_not_atomic_on_cov cov_function [3] [9] rfl rfl

end Spii
